import Mathlib

/-!
Shallow embedding of the core of xsar's sentinel1_xml_mappings module:
the azimuth FM-rate polynomial synthesis, the range / azimuth noise LUT
construction, the noise LUT evaluator, the geolocation grid reshape, the
file dataframe dataset-id disambiguation and the burst table composer.
Numeric pixel coordinates and LUT values are modelled as rationals;
numpy NaN is modelled as `none` in `Option` valued cells; fallible numpy
operations (reshape, stack with mismatched shapes, failed assertion)
return `Option`.
-/

namespace Xsar

/-- Floor of a rational as an integer, written through numerator and
denominator so that it evaluates by kernel reduction. -/
def ratFloor (q : ℚ) : ℤ := q.num / q.den

/-- Ceiling of a rational as an integer. -/
def ratCeil (q : ℚ) : ℤ := -ratFloor (-q)

/-- Truncation toward zero on a rational, the semantics of python `int(...)`
and of numpy `astype(int)` on a float value. -/
def pytrunc (q : ℚ) : ℤ := if 0 ≤ q then ratFloor q else ratCeil q

/-! ### azimuth_fmrate -/

/-- Model of `np.stack([a, b, c], axis=1)` for three 1-D arrays: the rows of
the result pair up the entries of the three inputs.  numpy raises when the
shapes differ, hence the `Option`. -/
def np_stack3 (a b c : List ℚ) : Option (List (List ℚ)) :=
  if a.length = b.length ∧ b.length = c.length then
    some ((List.range a.length).map (fun i => [a.getD i 0, b.getD i 0, c.getD i 0]))
  else none

/-- Coefficient-synthesis step of `azimuth_fmrate`: when the legacy c0/c1/c2
fields are non-empty and the combined `azimuthFmRatePolynomial` field has
size zero, the polynomial rows are synthesized as `np.stack([c0, c1, c1],
axis=1)`; otherwise the combined field is used as is. -/
def azimuth_fmrate_polynomial (c0 c1 c2 : List ℚ) (polynomial : List (List ℚ)) :
    Option (List (List ℚ)) :=
  if (c0.length + c1.length + c2.length ≠ 0) ∧ (polynomial.map List.length).sum = 0 then
    np_stack3 c0 c1 c1
  else
    some polynomial

/-! ### noise_lut_range along-track validity intervals -/

/-- Lower interval bounds computed by `noise_lut_range`:
`(atracks - np.diff(atracks, prepend=0) / 2).astype(int)`. -/
def atracks_start (a : List ℤ) : List ℤ :=
  (List.range a.length).map (fun i =>
    let ai : ℚ := a.getD i 0
    let ap : ℚ := if i = 0 then 0 else a.getD (i - 1) 0
    pytrunc (ai - (ai - ap) / 2))

/-- Upper interval bounds before the sentinel overwrite:
`np.ceil(atracks + np.diff(atracks, append=atracks[-1] + 1) / 2).astype(int)`. -/
def atracks_stop_raw (a : List ℤ) : List ℤ :=
  (List.range a.length).map (fun i =>
    let ai : ℚ := a.getD i 0
    let an : ℚ := if i + 1 < a.length then a.getD (i + 1) 0 else ai + 1
    ratCeil (ai + (an - ai) / 2))

/-- Upper interval bounds of `noise_lut_range`, after `atracks_stop[-1] = 65535`. -/
def atracks_stop (a : List ℤ) : List ℤ :=
  (atracks_stop_raw a).set (a.length - 1) 65535

/-! ### 1-D linear interpolation (scipy interp1d, kind linear) -/

/-- Affine line through `(x0, y0)` and `(x1, y1)` evaluated at `t`. -/
def interpSeg (x0 y0 x1 y1 t : ℚ) : ℚ := y0 + (t - x0) * (y1 - y0) / (x1 - x0)

/-- Model of `scipy.interpolate.interp1d(kind=linear, fill_value=extrapolate)`
on a sorted list of sample points: locate the bracketing segment and evaluate
its affine line; queries below the first sample use the first segment and
queries above the last sample use the last segment. -/
def interp1d_extrapolate : List (ℚ × ℚ) → ℚ → ℚ
  | [], _ => 0
  | [(_, y0)], _ => y0
  | (x0, y0) :: (x1, y1) :: rest, t =>
    if t ≤ x1 ∨ rest = [] then interpSeg x0 y0 x1 y1 t
    else interp1d_extrapolate ((x1, y1) :: rest) t

/-- Along-track interpolant of `Lut_box_azi`: linear interpolation with
extrapolation when the profile holds more than one sample, otherwise the
constant function returning the single stored value. -/
def lut_box_azi_f (a lut : List ℚ) : ℚ → ℚ :=
  if 1 < lut.length then interp1d_extrapolate (a.zip lut) else fun _t => lut.headD 0

/-! ### the noise LUT evaluator -/

/-- A noise block: an axis-aligned bounding region in (atrack, xtrack) pixel
space together with a local interpolant; `none` models a NaN value. -/
structure NoiseBlock where
  aMin : ℚ
  xMin : ℚ
  aMax : ℚ
  xMax : ℚ
  lut : ℚ → ℚ → Option ℚ

instance : Inhabited NoiseBlock := ⟨⟨0, 0, 0, 0, fun _ _ => none⟩⟩

/-- Intersection of a block's region with the asked box (shapely keeps
degenerate line or point intersections, so emptiness is strict inequality). -/
def interBlock (b : NoiseBlock) (qaMin qxMin qaMax qxMax : ℚ) : NoiseBlock :=
  ⟨max b.aMin qaMin, max b.xMin qxMin, min b.aMax qaMax, min b.xMax qxMax, b.lut⟩

/-- Whether query point `(a, x)` lands inside the integer-truncated bounds of
an (already intersected) block, the membership test
`(atracks >= sub_a_min) & (atracks <= sub_a_max)` of `_NoiseLut.__call__`. -/
def blockCovers (b : NoiseBlock) (a x : ℚ) : Prop :=
  (pytrunc b.aMin : ℚ) ≤ a ∧ a ≤ (pytrunc b.aMax : ℚ) ∧
  (pytrunc b.xMin : ℚ) ≤ x ∧ x ≤ (pytrunc b.xMax : ℚ)

instance (b : NoiseBlock) (a x : ℚ) : Decidable (blockCovers b a x) := by
  unfold blockCovers; infer_instance

/-- Blocks retained by `_NoiseLut.__call__`: each block's geometry is replaced
by its intersection with the asked box and empty intersections are dropped. -/
def matchBlocks (blocks : List NoiseBlock) (atracks xtracks : List ℚ) : List NoiseBlock :=
  let qaMin := max 0 (atracks.headD 0 - 1/2)
  let qxMin := max 0 (xtracks.headD 0 - 1/2)
  let qaMax := atracks.getLastD 0 + 1/2
  let qxMax := xtracks.getLastD 0 + 1/2
  blocks.filterMap (fun b =>
    let i := interBlock b qaMin qxMin qaMax qxMax
    if i.aMin ≤ i.aMax ∧ i.xMin ≤ i.xMax then some i else none)

/-- One output cell of the evaluator: the blocks are written in order into the
NaN-initialised output, so the cell holds the value of the last intersecting
block covering it, and stays NaN (`none`) when no block covers it. -/
def noiseCell (mblocks : List NoiseBlock) (a x : ℚ) : Option ℚ :=
  mblocks.foldl (fun acc b => if blockCovers b a x then b.lut a x else acc) none

/-- Model of `_NoiseLut.__call__`: the scalar identity 1 when the block
collection is empty, otherwise the 2-D array of cells indexed by the query
coordinates. -/
def noiseLutCall (blocks : List NoiseBlock) (atracks xtracks : List ℚ) :
    Sum ℚ (List (List (Option ℚ))) :=
  if blocks.isEmpty then Sum.inl 1
  else
    let mb := matchBlocks blocks atracks xtracks
    Sum.inr (atracks.map (fun a => xtracks.map (fun x => noiseCell mb a x)))

/-! ### noise_lut_azi block construction -/

/-- The synthetic catch-all block installed by `noise_lut_azi` when the
source product has no azimuth-noise record: the arbitrary large box
(0,0)-(65535,65535) with the constant-1 interpolant `lambda a, x: 1`. -/
def synthBlock : NoiseBlock :=
  { aMin := 0, xMin := 0, aMax := 65535, xMax := 65535, lut := fun _ _ => some 1 }

/-- Blocks built by `noise_lut_azi`: one block per azimuth-noise record, with
the record's rectangle expanded by half a pixel (clamped at 0) and the
along-track interpolant of `Lut_box_azi` tiled across the cross-track axis;
when there is no record at all, a single synthetic constant-1 block covering
the sentinel rectangle (0,0)-(65535,65535). -/
def noise_lut_azi_blocks (swath : List String) (atrack_azi : List (List ℤ))
    (atrack_azi_start atrack_azi_stop xtrack_azi_start xtrack_azi_stop : List ℤ)
    (noise_azi_lut : List (List ℚ)) : List NoiseBlock :=
  let z := (((((swath.zip atrack_azi).zip atrack_azi_start).zip atrack_azi_stop).zip
      xtrack_azi_start).zip xtrack_azi_stop).zip noise_azi_lut
  let blocks := z.map (fun e =>
    let lut := e.2
    let xStop := e.1.2
    let xStart := e.1.1.2
    let aStop := e.1.1.1.2
    let aStart := e.1.1.1.1.2
    let a := e.1.1.1.1.1.2
    { aMin := max 0 ((aStart : ℚ) - 1/2), xMin := max 0 ((xStart : ℚ) - 1/2),
      aMax := (aStop : ℚ) + 1/2, xMax := (xStop : ℚ) + 1/2,
      lut := fun qa _qx => some (lut_box_azi_f (a.map (fun v : ℤ => (v : ℚ))) lut qa) })
  if blocks.isEmpty then [synthBlock] else blocks

/-! ### geolocation_grid -/

/-- Row-major reshape of a flat list into rows of `ncols` entries, the
semantics of `np.reshape(values, (nrows, ncols))` on a matching-size input. -/
def np_reshape_rows (ncols : ℕ) (l : List ℚ) : List (List ℚ) :=
  if h : ncols = 0 ∨ l = [] then []
  else l.take ncols :: np_reshape_rows ncols (l.drop ncols)
termination_by l.length
decreasing_by
  push_neg at h
  simp only [List.length_drop]
  have h0 : 0 < ncols := Nat.pos_of_ne_zero h.1
  have h1 : 0 < l.length := List.length_pos.mpr h.2
  omega

/-- Model of `geolocation_grid`: reshape the flat values to
`(atrack.size, xtrack.size)`; numpy raises when the element count does not
match, hence the `Option`. -/
def geolocation_grid (atrack xtrack values : List ℚ) : Option (List (List ℚ)) :=
  if values.length = atrack.length * xtrack.length then
    some (np_reshape_rows xtrack.length values)
  else none

/-! ### df_files dataset-id disambiguation -/

/-- Zero-padded 3-digit rendering of a number, python `"%03d" % n`. -/
def pad3 (n : ℕ) : String :=
  (if n < 10 then "00" else if n < 100 then "0" else "") ++ toString n

/-- Dataset-id column computed by `df_files` from the per-file polarization
codes, raw dataset ids and file sequence numbers: when the raw ids are not
spatially unique they are re-synthesized from the radical of the first raw
id and the zero-padded file sequence number; the failed
`assert` on the re-synthesized ids is modelled by `none`. -/
def df_files_dsid (pols dsid : List String) (num : List ℕ) : Option (List String) :=
  let pols_count := pols.dedup.length
  let subds_count := pols.length / pols_count
  let dsid_count := dsid.dedup.length
  if dsid_count ≠ subds_count then
    let dsid_rad := (dsid.headD "").dropRight 1
    let dsid2 := num.map (fun n => dsid_rad ++ "_" ++ pad3 n)
    if dsid2.dedup.length = subds_count then some dsid2 else none
  else some dsid

/-! ### bursts -/

/-- Column indices of a burst row where at least one of the two valid-sample
arrays is finite after the -1 sentinel is mapped to NaN:
`np.where(np.isfinite(fvs) | np.isfinite(lvs))[0]`. -/
def validIndices (fvs lvs : List ℤ) : List ℕ :=
  (List.range fvs.length).filter (fun j => fvs.getD j 0 ≠ -1 ∨ lvs.getD j 0 ≠ -1)

/-- NaN-propagating reduction of a float array by a binary operation: NaN
(`none`) when any entry is NaN, and `none` on the empty array, where numpy
raises. -/
def nanReduce (op : ℤ → ℤ → ℤ) : List (Option ℤ) → Option ℤ
  | [] => none
  | x :: xs =>
    xs.foldl (fun acc y =>
      match acc, y with
      | some u, some v => some (op u v)
      | _, _ => none) x

/-- NaN-propagating minimum of a float array, numpy `.min()`. -/
def nanMin : List (Option ℤ) → Option ℤ := nanReduce min

/-- NaN-propagating maximum of a float array, numpy `.max()`. -/
def nanMax : List (Option ℤ) → Option ℤ := nanReduce max

/-- A burst row value after `-1` is mapped to NaN (`none`). -/
def maskNeg1 (v : ℤ) : Option ℤ := if v = -1 then none else some v

/-- The `valloc` row of `bursts` for burst `ibur`: components may be NaN
(`none`) before the final int32 cast, whose behaviour on NaN is undefined. -/
def validLoc (lines_per_burst : ℤ) (ibur : ℕ) (fvs lvs : List ℤ) :
    Option ℤ × Option ℤ × Option ℤ × Option ℤ :=
  let valind := validIndices fvs lvs
  ((valind.min?).map (fun j => ibur * lines_per_burst + j),
   nanMin (valind.map (fun j => (fvs.map maskNeg1).getD j none)),
   (valind.max?).map (fun j => ibur * lines_per_burst + j),
   nanMax (valind.map (fun j => (lvs.map maskNeg1).getD j none)))

/-- Model of the `bursts` composer restricted to the data the claims are
about: `None` when both `lines_per_burst` and `samples_per_burst` are 0,
otherwise the `valid_locations` table with one row per burst. -/
def bursts (lines_per_burst samples_per_burst : ℤ) (burst_azimuthTime : List ℚ)
    (burst_firstValidSample burst_lastValidSample : List (List ℤ)) :
    Option (List (Option ℤ × Option ℤ × Option ℤ × Option ℤ)) :=
  if lines_per_burst = 0 ∧ samples_per_burst = 0 then none
  else
    some ((List.range burst_azimuthTime.length).map (fun ibur =>
      validLoc lines_per_burst ibur (burst_firstValidSample.getD ibur [])
        (burst_lastValidSample.getD ibur [])))

/-! ## Helper lemmas -/

theorem getD_map_range {α : Type} (f : ℕ → α) (d : α) {n i : ℕ} (h : i < n) :
    ((List.range n).map f).getD i d = f i := by
  rw [List.getD_eq_getElem?_getD]
  simp [List.getElem?_map, List.getElem?_range, h]

theorem ratFloor_eq (q : ℚ) : ratFloor q = ⌊q⌋ := Rat.floor_def.symm

theorem ratCeil_eq (q : ℚ) : ratCeil q = ⌈q⌉ := by
  rw [ratCeil, ratFloor_eq, Int.floor_neg, neg_neg]

theorem pytrunc_nonneg_eq_floor (q : ℚ) (h : 0 ≤ q) : pytrunc q = ⌊q⌋ := by
  rw [pytrunc, if_pos h, ratFloor_eq]

theorem range_map_getD_pair (c0 c1 : List ℚ) (h : c0.length = c1.length) :
    (List.range c0.length).map (fun i => [c0.getD i 0, c1.getD i 0, c1.getD i 0]) =
      List.zipWith (fun x y => [x, y, y]) c0 c1 := by
  induction c0 generalizing c1 with
  | nil => simp
  | cons x xs ih =>
    cases c1 with
    | nil => simp at h
    | cons y ys =>
      simp only [List.length_cons, List.range_succ_eq_map, List.map_cons, List.map_map,
        List.zipWith_cons_cons]
      refine congrArg₂ _ rfl ?_
      rw [← ih ys (by simpa using h)]
      apply List.map_congr_left
      intro i _hi
      simp [Function.comp]

/-! ## Claim C1 -/

/-- Claim C1: when the combined azimuthFmRatePolynomial input has size zero
and the legacy coefficient arrays are non-empty, `azimuth_fmrate` synthesizes
the per-row polynomial coefficient vectors as `[c0, c1, c1]`, reusing `c1` as
the third coefficient instead of `c2`. -/
theorem azimuth_fmrate_legacy_fallback (c0 c1 c2 : List ℚ) (polynomial : List (List ℚ))
    (hpoly : (polynomial.map List.length).sum = 0)
    (hlen : c0.length = c1.length)
    (hne : c0.length + c1.length + c2.length ≠ 0) :
    azimuth_fmrate_polynomial c0 c1 c2 polynomial =
      some (List.zipWith (fun x y => [x, y, y]) c0 c1) := by
  unfold azimuth_fmrate_polynomial np_stack3
  rw [if_pos ⟨hne, hpoly⟩, if_pos ⟨hlen, rfl⟩]
  exact congrArg some (range_map_getD_pair c0 c1 hlen)

/-- Witness for claim C1 at a concrete legacy input. -/
theorem azimuth_fmrate_legacy_fallback_witness :
    ((([] : List (List ℚ)).map List.length).sum = 0 ∧
      ([1, 2] : List ℚ).length = ([3, 4] : List ℚ).length ∧
      ([1, 2] : List ℚ).length + ([3, 4] : List ℚ).length + ([5, 6] : List ℚ).length ≠ 0) ∧
    azimuth_fmrate_polynomial [1, 2] [3, 4] [5, 6] [] = some [[1, 3, 3], [2, 4, 4]] :=
  ⟨⟨rfl, rfl, by decide⟩,
    (azimuth_fmrate_legacy_fallback [1, 2] [3, 4] [5, 6] [] rfl rfl (by decide)).trans
      (by decide)⟩

/-! ## Claim C2 -/

/-- Claim C2 counterexample: for the strictly increasing along-track sample
array [2, 5], the first derived interval starts at 1 rather than 0, and the
second interval's lower bound 3 differs from the first interval's upper
bound 4, so the intervals do not cover [0, +inf) and midpoint continuity
fails as stated. -/
theorem noise_lut_range_intervals_claim_false :
    ([2, 5] : List ℤ).Pairwise (· < ·) ∧
    atracks_start [2, 5] = [1, 3] ∧ atracks_stop [2, 5] = [4, 65535] ∧
    ¬((atracks_start [2, 5]).getD 0 0 = 0 ∧
      (atracks_start [2, 5]).getD 1 0 = (atracks_stop [2, 5]).getD 0 0) := by
  have h1 : atracks_start [2, 5] = [1, 3] := by
    simp only [atracks_start, List.length_cons, List.length_nil, List.range_succ,
      List.range_zero, List.map_append, List.map_cons, List.map_nil, pytrunc,
      ratFloor_eq, ratCeil_eq]
    norm_num
  have h2 : atracks_stop [2, 5] = [4, 65535] := by
    simp only [atracks_stop, atracks_stop_raw, List.length_cons, List.length_nil,
      List.range_succ, List.range_zero, List.map_append, List.map_cons, List.map_nil,
      ratCeil_eq]
    norm_num [Int.ceil_eq_iff, List.set]
  refine ⟨by decide, h1, h2, ?_⟩
  rw [h1, h2]
  decide

/-- Claim C2 (amended): for a strictly increasing non-negative along-track
sample array, interval 0 starts at the truncated half of the first sample
(0 only when that sample is 0 or 1); for every later interval the lower
bound is the floor of the midpoint of the two adjacent samples while the
previous interval's upper bound is the ceiling of the same midpoint, so the
lower bound never exceeds the previous upper bound (they coincide exactly
when the two samples have even sum) and the intervals cover everything from
the first lower bound up to the final sentinel upper bound 65535 with no
gap. -/
theorem noise_lut_range_interval_structure (a : List ℤ) (hne : a ≠ [])
    (hpos : ∀ v ∈ a, 0 ≤ v) (hinc : a.Pairwise (· < ·)) :
    (atracks_start a).getD 0 0 = ⌊((a.getD 0 0 : ℤ) : ℚ) / 2⌋ ∧
    (∀ i, 1 ≤ i → i < a.length →
      (atracks_start a).getD i 0 =
        ⌊(((a.getD (i - 1) 0 + a.getD i 0 : ℤ) : ℚ)) / 2⌋ ∧
      (atracks_stop a).getD (i - 1) 0 =
        ⌈(((a.getD (i - 1) 0 + a.getD i 0 : ℤ) : ℚ)) / 2⌉ ∧
      (atracks_start a).getD i 0 ≤ (atracks_stop a).getD (i - 1) 0) ∧
    (atracks_stop a).getD (a.length - 1) 0 = 65535 := by
  have hn : 0 < a.length := List.length_pos.mpr hne
  have hmem : ∀ i, i < a.length → 0 ≤ a.getD i 0 := by
    intro i hi
    rw [List.getD_eq_getElem a 0 hi]
    exact hpos _ (List.getElem_mem hi)
  have hstopraw_len : (atracks_stop_raw a).length = a.length := by
    simp [atracks_stop_raw]
  refine ⟨?_, ?_, ?_⟩
  · rw [atracks_start, getD_map_range _ _ hn]
    have h0 : (0 : ℚ) ≤ ((a.getD 0 0 : ℤ) : ℚ) := by exact_mod_cast hmem 0 hn
    simp only [if_pos rfl, reduceIte]
    rw [show ((a.getD 0 0 : ℤ) : ℚ) - (((a.getD 0 0 : ℤ) : ℚ) - 0) / 2 =
        ((a.getD 0 0 : ℤ) : ℚ) / 2 from by ring]
    exact pytrunc_nonneg_eq_floor _ (by linarith)
  · intro i h1 hi
    have hprev : i - 1 < a.length := lt_of_le_of_lt (Nat.sub_le i 1) hi
    have hp : (0 : ℚ) ≤ ((a.getD (i - 1) 0 : ℤ) : ℚ) := by exact_mod_cast hmem _ hprev
    have hc : (0 : ℚ) ≤ ((a.getD i 0 : ℤ) : ℚ) := by exact_mod_cast hmem _ hi
    have hstart : (atracks_start a).getD i 0 =
        ⌊(((a.getD (i - 1) 0 + a.getD i 0 : ℤ) : ℚ)) / 2⌋ := by
      rw [atracks_start, getD_map_range _ _ hi]
      simp only [if_neg (by omega : ¬ i = 0)]
      rw [show ((a.getD i 0 : ℤ) : ℚ) - (((a.getD i 0 : ℤ) : ℚ) - ((a.getD (i - 1) 0 : ℤ) : ℚ)) / 2 =
          (((a.getD (i - 1) 0 + a.getD i 0 : ℤ) : ℚ)) / 2 from by push_cast; ring]
      exact pytrunc_nonneg_eq_floor _ (by push_cast; linarith)
    have hstop : (atracks_stop a).getD (i - 1) 0 =
        ⌈(((a.getD (i - 1) 0 + a.getD i 0 : ℤ) : ℚ)) / 2⌉ := by
      rw [atracks_stop, List.getD_eq_getElem?_getD,
        List.getElem?_set_ne (by omega : a.length - 1 ≠ i - 1),
        ← List.getD_eq_getElem?_getD, atracks_stop_raw, getD_map_range _ _ hprev]
      have hii : (i - 1) + 1 = i := by omega
      simp only [hii, if_pos hi]
      rw [ratCeil_eq]
      congr 1
      push_cast
      ring
    exact ⟨hstart, hstop, by rw [hstart, hstop]; exact Int.floor_le_ceil _⟩
  · rw [atracks_stop, List.getD_eq_getElem?_getD, List.getElem?_set_self
      (by omega : a.length - 1 < (atracks_stop_raw a).length)]
    rfl

/-- Witness for claim C2's amended statement at the array [2, 5]. -/
theorem noise_lut_range_interval_structure_witness :
    (([2, 5] : List ℤ) ≠ [] ∧ (∀ v ∈ ([2, 5] : List ℤ), 0 ≤ v) ∧
      ([2, 5] : List ℤ).Pairwise (· < ·)) ∧
    ((atracks_start [2, 5]).getD 0 0 = ⌊((([2, 5] : List ℤ).getD 0 0 : ℤ) : ℚ) / 2⌋ ∧
     (∀ i, 1 ≤ i → i < ([2, 5] : List ℤ).length →
       (atracks_start [2, 5]).getD i 0 =
         ⌊(((([2, 5] : List ℤ).getD (i - 1) 0 + ([2, 5] : List ℤ).getD i 0 : ℤ) : ℚ)) / 2⌋ ∧
       (atracks_stop [2, 5]).getD (i - 1) 0 =
         ⌈(((([2, 5] : List ℤ).getD (i - 1) 0 + ([2, 5] : List ℤ).getD i 0 : ℤ) : ℚ)) / 2⌉ ∧
       (atracks_start [2, 5]).getD i 0 ≤ (atracks_stop [2, 5]).getD (i - 1) 0) ∧
     (atracks_stop [2, 5]).getD (([2, 5] : List ℤ).length - 1) 0 = 65535) :=
  ⟨⟨by decide, by decide, by decide⟩,
    noise_lut_range_interval_structure [2, 5] (by decide) (by decide) (by decide)⟩

/-! ## Claim C3 -/

/-- Claim C3: evaluating a noise LUT whose block collection is empty returns
the scalar 1 — not an array — whatever the (non-empty) query coordinate
arrays are. -/
theorem noise_lut_empty_blocks_scalar_one (atracks xtracks : List ℚ)
    (ha : atracks ≠ []) (hx : xtracks ≠ []) :
    noiseLutCall [] atracks xtracks = Sum.inl 1 := rfl

/-- Witness for claim C3 at concrete query coordinates. -/
theorem noise_lut_empty_blocks_scalar_one_witness :
    (([3, 7] : List ℚ) ≠ [] ∧ ([1] : List ℚ) ≠ []) ∧
    noiseLutCall [] [3, 7] [1] = Sum.inl 1 :=
  ⟨⟨List.cons_ne_nil _ _, List.cons_ne_nil _ _⟩,
    noise_lut_empty_blocks_scalar_one [3, 7] [1] (List.cons_ne_nil _ _) (List.cons_ne_nil _ _)⟩

/-! ## Claim C6 -/

theorem np_reshape_rows_spec (n : ℕ) (hn : n ≠ 0) :
    ∀ (rows : ℕ) (l : List ℚ), l.length = rows * n →
      (np_reshape_rows n l).length = rows ∧
      (∀ r ∈ np_reshape_rows n l, r.length = n) ∧
      (np_reshape_rows n l).flatten = l := by
  intro rows
  induction rows with
  | zero =>
    intro l hl
    have hnil : l = [] := List.length_eq_zero.mp (by simpa using hl)
    subst hnil
    rw [np_reshape_rows]
    simp
  | succ k ih =>
    intro l hl
    have hlnil : l ≠ [] := by
      intro hcon
      subst hcon
      simp at hl
      omega
    rw [np_reshape_rows, dif_neg (by push_neg; exact ⟨hn, hlnil⟩)]
    have hdrop : (l.drop n).length = k * n := by
      simp only [List.length_drop, hl]
      ring_nf
      omega
    obtain ⟨ih1, ih2, ih3⟩ := ih (l.drop n) hdrop
    have htake : (l.take n).length = n := by
      rw [List.length_take, hl]
      exact min_eq_left (Nat.le_mul_of_pos_left n (Nat.succ_pos k))
    refine ⟨by simp [ih1], ?_, ?_⟩
    · intro r hr
      rcases List.mem_cons.mp hr with hh | hh
      · subst hh; exact htake
      · exact ih2 r hh
    · simp [ih3, List.take_append_drop]

/-- Claim C6: `geolocation_grid` reshapes the flat values row-major with
along-track as the slower-varying axis, so the resulting 2-D array has one
row per along-track coordinate, each row has one entry per cross-track
coordinate, and flattening it row-major reproduces the original values
sequence exactly. -/
theorem geolocation_grid_roundtrip (atrack xtrack values : List ℚ)
    (hlen : values.length = atrack.length * xtrack.length)
    (hx : xtrack.length ≠ 0) :
    ∃ g, geolocation_grid atrack xtrack values = some g ∧
      g.length = atrack.length ∧
      (∀ r ∈ g, r.length = xtrack.length) ∧
      g.flatten = values := by
  obtain ⟨h1, h2, h3⟩ := np_reshape_rows_spec xtrack.length hx atrack.length values hlen
  exact ⟨np_reshape_rows xtrack.length values, by rw [geolocation_grid, if_pos hlen], h1, h2, h3⟩

/-- Witness for claim C6 on a 2 by 3 grid. -/
theorem geolocation_grid_roundtrip_witness :
    (([1, 2, 3, 4, 5, 6] : List ℚ).length =
        ([10, 20] : List ℚ).length * ([0, 5, 9] : List ℚ).length ∧
      ([0, 5, 9] : List ℚ).length ≠ 0) ∧
    ∃ g, geolocation_grid [10, 20] [0, 5, 9] [1, 2, 3, 4, 5, 6] = some g ∧
      g.length = ([10, 20] : List ℚ).length ∧
      (∀ r ∈ g, r.length = ([0, 5, 9] : List ℚ).length) ∧
      g.flatten = [1, 2, 3, 4, 5, 6] :=
  ⟨⟨rfl, by decide⟩,
    geolocation_grid_roundtrip [10, 20] [0, 5, 9] [1, 2, 3, 4, 5, 6] rfl (by decide)⟩

/-! ## Claim C7 -/

/-- Claim C7: for a file list encoding two distinct polarizations and three
sub-datasets all sharing the raw dataset-id "WV1" with file sequence numbers
1,1,2,2,3,3, `df_files` re-synthesizes the ids as WV_001, WV_002, WV_003
(radical plus zero-padded 3-digit sequence number), the unique-id count is 3
and it equals the sub-dataset count (file count divided by polarization
count). -/
theorem df_files_wv_disambiguation (p q : String) (hpq : p ≠ q) :
    df_files_dsid [p, q, p, q, p, q] ["WV1", "WV1", "WV1", "WV1", "WV1", "WV1"]
        [1, 1, 2, 2, 3, 3] =
      some ["WV_001", "WV_001", "WV_002", "WV_002", "WV_003", "WV_003"] ∧
    (["WV_001", "WV_001", "WV_002", "WV_002", "WV_003", "WV_003"] : List String).dedup.length
      = 3 ∧
    3 = [p, q, p, q, p, q].length / [p, q, p, q, p, q].dedup.length := by
  have hd : [p, q, p, q, p, q].dedup = [p, q] := by
    rw [List.dedup_cons_of_mem (by simp), List.dedup_cons_of_mem (by simp),
      List.dedup_cons_of_mem (by simp), List.dedup_cons_of_mem (by simp),
      List.dedup_cons_of_not_mem (by simp [hpq]), List.dedup_cons_of_not_mem (by simp),
      List.dedup_nil]
  refine ⟨?_, by decide, by rw [hd]; simp⟩
  rw [df_files_dsid]
  simp only [hd]
  norm_num
  decide

/-- Witness for claim C7 with the polarization pair VV, VH. -/
theorem df_files_wv_disambiguation_witness :
    ("VV" ≠ "VH") ∧
    df_files_dsid ["VV", "VH", "VV", "VH", "VV", "VH"]
        ["WV1", "WV1", "WV1", "WV1", "WV1", "WV1"] [1, 1, 2, 2, 3, 3] =
      some ["WV_001", "WV_001", "WV_002", "WV_002", "WV_003", "WV_003"] ∧
    (["WV_001", "WV_001", "WV_002", "WV_002", "WV_003", "WV_003"] : List String).dedup.length
      = 3 ∧
    3 = ["VV", "VH", "VV", "VH", "VV", "VH"].length /
        ["VV", "VH", "VV", "VH", "VV", "VH"].dedup.length :=
  ⟨by decide, df_files_wv_disambiguation "VV" "VH" (by decide)⟩

/-! ## Claim C10 -/

/-- Claim C10: `bursts` returns None exactly when both lines_per_burst and
samples_per_burst are 0; for any other combination it proceeds to build the
burst table, with one row per burst record. -/
theorem bursts_zero_guard (lpb spb : ℤ) (azt : List ℚ) (fvs lvs : List (List ℤ)) :
    (lpb = 0 ∧ spb = 0 → bursts lpb spb azt fvs lvs = none) ∧
    (¬(lpb = 0 ∧ spb = 0) →
      ∃ tbl, bursts lpb spb azt fvs lvs = some tbl ∧ tbl.length = azt.length) := by
  constructor
  · intro hz
    rw [bursts, if_pos hz]
  · intro hz
    refine ⟨_, by rw [bursts, if_neg hz], by simp⟩

/-- Witness for claim C10: both branches at concrete inputs. -/
theorem bursts_zero_guard_witness :
    bursts 0 0 [] [] [] = none ∧
    ∃ tbl, bursts 1513 25187 [0] [[5]] [[7]] = some tbl ∧ tbl.length = 1 :=
  ⟨(bursts_zero_guard 0 0 [] [] []).1 ⟨rfl, rfl⟩,
    by simpa using (bursts_zero_guard 1513 25187 [0] [[5]] [[7]]).2 (by simp)⟩

/-! ## Claim C9 -/

theorem getD_map {α β : Type} (f : α → β) (l : List α) (d : β) (e : α) {i : ℕ}
    (h : i < l.length) : (l.map f).getD i d = f (l.getD i e) := by
  rw [List.getD_eq_getElem _ _ (by simpa using h), List.getElem_map,
    List.getD_eq_getElem _ _ h]

theorem noiseCell_eq_none (mb : List NoiseBlock) (a x : ℚ) :
    (∀ b ∈ mb, ¬ blockCovers b a x) → noiseCell mb a x = none := by
  induction mb with
  | nil => intro _; rfl
  | cons b bs ih =>
    intro h
    rw [noiseCell, List.foldl_cons, if_neg (h b (List.mem_cons_self b bs))]
    exact ih (fun c hc => h c (List.mem_cons_of_mem b hc))

/-- Claim C9: evaluating a noise LUT with a non-empty block collection on
non-empty query coordinate arrays always returns (without failing) a 2-D
array with one row per along-track coordinate and one column per cross-track
coordinate, and every position not covered by any intersecting block holds
NaN (`none`). -/
theorem noise_lut_eval_shape_and_gaps (blocks : List NoiseBlock)
    (atracks xtracks : List ℚ) (hb : blocks ≠ []) (ha : atracks ≠ [])
    (hx : xtracks ≠ []) :
    ∃ g, noiseLutCall blocks atracks xtracks = Sum.inr g ∧
      g.length = atracks.length ∧
      (∀ row ∈ g, row.length = xtracks.length) ∧
      (∀ i j, i < atracks.length → j < xtracks.length →
        (∀ b ∈ matchBlocks blocks atracks xtracks,
          ¬ blockCovers b (atracks.getD i 0) (xtracks.getD j 0)) →
        (g.getD i []).getD j (some 0) = none) := by
  refine ⟨atracks.map (fun a => xtracks.map (fun x =>
      noiseCell (matchBlocks blocks atracks xtracks) a x)), ?_, by simp, ?_, ?_⟩
  · rw [noiseLutCall, if_neg (by simpa [List.isEmpty_iff] using hb)]
  · intro row hrow
    obtain ⟨a, _ha, rfl⟩ := List.mem_map.mp hrow
    simp
  · intro i j hi hj hcov
    rw [getD_map _ _ _ 0 hi, getD_map _ _ _ 0 hj]
    exact noiseCell_eq_none _ _ _ hcov

/-- Witness for claim C9: a single block away from the queried coordinates
leaves the whole output NaN. -/
theorem noise_lut_eval_shape_and_gaps_witness :
    (([⟨10, 10, 20, 20, fun _ _ => some 5⟩] : List NoiseBlock) ≠ [] ∧
      ([0] : List ℚ) ≠ [] ∧ ([0] : List ℚ) ≠ []) ∧
    ∃ g, noiseLutCall [⟨10, 10, 20, 20, fun _ _ => some 5⟩] [0] [0] = Sum.inr g ∧
      g.length = ([0] : List ℚ).length ∧
      (∀ row ∈ g, row.length = ([0] : List ℚ).length) ∧
      (∀ i j, i < ([0] : List ℚ).length → j < ([0] : List ℚ).length →
        (∀ b ∈ matchBlocks [⟨10, 10, 20, 20, fun _ _ => some 5⟩] [0] [0],
          ¬ blockCovers b (([0] : List ℚ).getD i 0) (([0] : List ℚ).getD j 0)) →
        (g.getD i []).getD j (some 0) = none) :=
  ⟨⟨List.cons_ne_nil _ _, List.cons_ne_nil _ _, List.cons_ne_nil _ _⟩,
    noise_lut_eval_shape_and_gaps [⟨10, 10, 20, 20, fun _ _ => some 5⟩] [0] [0]
      (List.cons_ne_nil _ _) (List.cons_ne_nil _ _) (List.cons_ne_nil _ _)⟩

/-! ## Claim C5 -/

theorem headD_map_cast (l : List ℤ) (hl : l ≠ []) :
    (l.map (fun v : ℤ => (v : ℚ))).headD 0 = ((l.headD 0 : ℤ) : ℚ) := by
  cases l with
  | nil => exact absurd rfl hl
  | cons a as => rfl

theorem getLastD_map_cast_gen (l : List ℤ) (d : ℤ) (hl : l ≠ []) :
    (l.map (fun v : ℤ => (v : ℚ))).getLastD ((d : ℤ) : ℚ) = ((l.getLastD d : ℤ) : ℚ) := by
  induction l generalizing d with
  | nil => exact absurd rfl hl
  | cons a as ih =>
    cases as with
    | nil => rfl
    | cons b bs =>
      rw [List.map_cons, List.getLastD_cons, List.getLastD_cons]
      exact ih a (List.cons_ne_nil _ _)

theorem getLastD_map_cast (l : List ℤ) (hl : l ≠ []) :
    (l.map (fun v : ℤ => (v : ℚ))).getLastD 0 = ((l.getLastD 0 : ℤ) : ℚ) := by
  simpa using getLastD_map_cast_gen l 0 hl

theorem headD_mem {α : Type} (l : List α) (d : α) (h : l ≠ []) : l.headD d ∈ l := by
  cases l with
  | nil => exact absurd rfl h
  | cons a as => exact List.mem_cons_self a as

theorem getLastD_mem {α : Type} (l : List α) (d : α) (h : l ≠ []) : l.getLastD d ∈ l := by
  rw [List.getLastD_eq_getLast?]
  cases hh : l.getLast? with
  | none => exact absurd (List.getLast?_eq_none_iff.mp hh) h
  | some y => exact List.mem_of_getLast?_eq_some hh

theorem pytrunc_max_lower (k : ℤ) (hk : 0 ≤ k) :
    pytrunc (max 0 ((k : ℚ) - 1/2)) ≤ k := by
  rw [pytrunc_nonneg_eq_floor _ (le_max_left _ _)]
  have h1 : max 0 ((k : ℚ) - 1/2) ≤ ((k : ℚ)) :=
    max_le (by exact_mod_cast hk) (by linarith)
  calc ⌊max 0 ((k : ℚ) - 1/2)⌋ ≤ ⌊(k : ℚ)⌋ := Int.floor_le_floor h1
    _ = k := Int.floor_intCast k

theorem pytrunc_min_upper (k : ℤ) (hk0 : 0 ≤ k) (hk : k ≤ 65535) :
    k ≤ pytrunc (min 65535 ((k : ℚ) + 1/2)) := by
  have hq : (0 : ℚ) ≤ min 65535 ((k : ℚ) + 1/2) := by
    refine le_min (by norm_num) ?_
    have : (0 : ℚ) ≤ (k : ℚ) := by exact_mod_cast hk0
    linarith
  rw [pytrunc_nonneg_eq_floor _ hq]
  have h1 : ((k : ℚ)) ≤ min 65535 ((k : ℚ) + 1/2) :=
    le_min (by exact_mod_cast hk) (by linarith)
  calc k = ⌊(k : ℚ)⌋ := (Int.floor_intCast k).symm
    _ ≤ ⌊min 65535 ((k : ℚ) + 1/2)⌋ := Int.floor_le_floor h1

/-- Claim C5: with zero azimuth-noise records, `noise_lut_azi` installs a
single synthetic block over the sentinel rectangle (0,0)-(65535,65535) whose
interpolant is constantly 1, and evaluating the resulting noise LUT at any
sorted in-image integer pixel coordinates yields 1 everywhere. -/
theorem noise_lut_azi_no_records (za zx : List ℤ) (hza : za ≠ []) (hzx : zx ≠ [])
    (hzaB : ∀ v ∈ za, za.headD 0 ≤ v ∧ v ≤ za.getLastD 0 ∧ 0 ≤ v ∧ v ≤ 65535)
    (hzxB : ∀ v ∈ zx, zx.headD 0 ≤ v ∧ v ≤ zx.getLastD 0 ∧ 0 ≤ v ∧ v ≤ 65535) :
    (∃ b, noise_lut_azi_blocks [] [] [] [] [] [] [] = [b] ∧
      b.aMin = 0 ∧ b.xMin = 0 ∧ b.aMax = 65535 ∧ b.xMax = 65535 ∧
      ∀ qa qx, b.lut qa qx = some 1) ∧
    ∃ g, noiseLutCall (noise_lut_azi_blocks [] [] [] [] [] [] [])
        (za.map (fun v : ℤ => (v : ℚ))) (zx.map (fun v : ℤ => (v : ℚ))) = Sum.inr g ∧
      g.length = za.length ∧ (∀ row ∈ g, row.length = zx.length) ∧
      ∀ row ∈ g, ∀ c ∈ row, c = some 1 := by
  have ha0 := hzaB (za.headD 0) (headD_mem za 0 hza)
  have haL := hzaB (za.getLastD 0) (getLastD_mem za 0 hza)
  have hx0 := hzxB (zx.headD 0) (headD_mem zx 0 hzx)
  have hxL := hzxB (zx.getLastD 0) (getLastD_mem zx 0 hzx)
  refine ⟨⟨synthBlock, rfl, rfl, rfl, rfl, rfl, fun _ _ => rfl⟩, ?_⟩
  set atr : List ℚ := za.map (fun v : ℤ => (v : ℚ)) with hatr
  set xtr : List ℚ := zx.map (fun v : ℤ => (v : ℚ)) with hxtr
  have hheadA : atr.headD 0 = ((za.headD 0 : ℤ) : ℚ) := headD_map_cast za hza
  have hlastA : atr.getLastD 0 = ((za.getLastD 0 : ℤ) : ℚ) := getLastD_map_cast za hza
  have hheadX : xtr.headD 0 = ((zx.headD 0 : ℤ) : ℚ) := headD_map_cast zx hzx
  have hlastX : xtr.getLastD 0 = ((zx.getLastD 0 : ℤ) : ℚ) := getLastD_map_cast zx hzx
  have hmaxA : max (0 : ℚ) (max 0 (atr.headD 0 - 1/2)) = max 0 (atr.headD 0 - 1/2) :=
    max_eq_right (le_max_left _ _)
  have hmaxX : max (0 : ℚ) (max 0 (xtr.headD 0 - 1/2)) = max 0 (xtr.headD 0 - 1/2) :=
    max_eq_right (le_max_left _ _)
  have hcond :
      (interBlock synthBlock (max 0 (atr.headD 0 - 1/2)) (max 0 (xtr.headD 0 - 1/2))
          (atr.getLastD 0 + 1/2) (xtr.getLastD 0 + 1/2)).aMin ≤
        (interBlock synthBlock (max 0 (atr.headD 0 - 1/2)) (max 0 (xtr.headD 0 - 1/2))
          (atr.getLastD 0 + 1/2) (xtr.getLastD 0 + 1/2)).aMax ∧
      (interBlock synthBlock (max 0 (atr.headD 0 - 1/2)) (max 0 (xtr.headD 0 - 1/2))
          (atr.getLastD 0 + 1/2) (xtr.getLastD 0 + 1/2)).xMin ≤
        (interBlock synthBlock (max 0 (atr.headD 0 - 1/2)) (max 0 (xtr.headD 0 - 1/2))
          (atr.getLastD 0 + 1/2) (xtr.getLastD 0 + 1/2)).xMax := by
    constructor
    · show max (0 : ℚ) (max 0 (atr.headD 0 - 1/2)) ≤ min 65535 (atr.getLastD 0 + 1/2)
      rw [hmaxA, hheadA, hlastA]
      have hha : ((za.headD 0 : ℤ) : ℚ) ≤ 65535 := by exact_mod_cast ha0.2.2.2
      have hla : (0 : ℚ) ≤ ((za.getLastD 0 : ℤ) : ℚ) := by exact_mod_cast haL.2.2.1
      have hal : ((za.headD 0 : ℤ) : ℚ) ≤ ((za.getLastD 0 : ℤ) : ℚ) := by
        exact_mod_cast ha0.2.1
      exact le_min (max_le (by norm_num) (by linarith))
        (max_le (by linarith) (by linarith))
    · show max (0 : ℚ) (max 0 (xtr.headD 0 - 1/2)) ≤ min 65535 (xtr.getLastD 0 + 1/2)
      rw [hmaxX, hheadX, hlastX]
      have hha : ((zx.headD 0 : ℤ) : ℚ) ≤ 65535 := by exact_mod_cast hx0.2.2.2
      have hla : (0 : ℚ) ≤ ((zx.getLastD 0 : ℤ) : ℚ) := by exact_mod_cast hxL.2.2.1
      have hal : ((zx.headD 0 : ℤ) : ℚ) ≤ ((zx.getLastD 0 : ℤ) : ℚ) := by
        exact_mod_cast hx0.2.1
      exact le_min (max_le (by norm_num) (by linarith))
        (max_le (by linarith) (by linarith))
  have hmb : matchBlocks (noise_lut_azi_blocks [] [] [] [] [] [] []) atr xtr =
      [interBlock synthBlock (max 0 (atr.headD 0 - 1/2)) (max 0 (xtr.headD 0 - 1/2))
        (atr.getLastD 0 + 1/2) (xtr.getLastD 0 + 1/2)] := by
    show matchBlocks [synthBlock] atr xtr = _
    simp only [matchBlocks, List.filterMap_cons, List.filterMap_nil, if_pos hcond]
  have hcover : ∀ va ∈ za, ∀ vx ∈ zx,
      blockCovers
        (interBlock synthBlock (max 0 (atr.headD 0 - 1/2)) (max 0 (xtr.headD 0 - 1/2))
          (atr.getLastD 0 + 1/2) (xtr.getLastD 0 + 1/2)) ((va : ℤ) : ℚ) ((vx : ℤ) : ℚ) := by
    intro va hva vx hvx
    obtain ⟨hva1, hva2, hva3, hva4⟩ := hzaB va hva
    obtain ⟨hvx1, hvx2, hvx3, hvx4⟩ := hzxB vx hvx
    refine ⟨?_, ?_, ?_, ?_⟩
    · show ((pytrunc (max (0 : ℚ) (max 0 (atr.headD 0 - 1/2))) : ℤ) : ℚ) ≤ ((va : ℤ) : ℚ)
      have hle : pytrunc (max (0 : ℚ) (max 0 (atr.headD 0 - 1/2))) ≤ va := by
        rw [hmaxA, hheadA]
        exact le_trans (pytrunc_max_lower _ ha0.2.2.1) hva1
      exact_mod_cast hle
    · show ((va : ℤ) : ℚ) ≤ ((pytrunc (min (65535 : ℚ) (atr.getLastD 0 + 1/2)) : ℤ) : ℚ)
      have hle : va ≤ pytrunc (min (65535 : ℚ) (atr.getLastD 0 + 1/2)) := by
        rw [hlastA]
        exact le_trans hva2 (pytrunc_min_upper _ haL.2.2.1 haL.2.2.2)
      exact_mod_cast hle
    · show ((pytrunc (max (0 : ℚ) (max 0 (xtr.headD 0 - 1/2))) : ℤ) : ℚ) ≤ ((vx : ℤ) : ℚ)
      have hle : pytrunc (max (0 : ℚ) (max 0 (xtr.headD 0 - 1/2))) ≤ vx := by
        rw [hmaxX, hheadX]
        exact le_trans (pytrunc_max_lower _ hx0.2.2.1) hvx1
      exact_mod_cast hle
    · show ((vx : ℤ) : ℚ) ≤ ((pytrunc (min (65535 : ℚ) (xtr.getLastD 0 + 1/2)) : ℤ) : ℚ)
      have hle : vx ≤ pytrunc (min (65535 : ℚ) (xtr.getLastD 0 + 1/2)) := by
        rw [hlastX]
        exact le_trans hvx2 (pytrunc_min_upper _ hxL.2.2.1 hxL.2.2.2)
      exact_mod_cast hle
  refine ⟨atr.map (fun a => xtr.map (fun x =>
      noiseCell (matchBlocks (noise_lut_azi_blocks [] [] [] [] [] [] []) atr xtr) a x)),
    ?_, by rw [List.length_map, hatr, List.length_map], ?_, ?_⟩
  · rw [show noise_lut_azi_blocks [] [] [] [] [] [] [] = [synthBlock] from rfl,
      noiseLutCall, if_neg (by simp)]
  · intro row hrow
    obtain ⟨a, _ha, rfl⟩ := List.mem_map.mp hrow
    rw [List.length_map, hxtr, List.length_map]
  · intro row hrow c hc
    obtain ⟨a, haq, rfl⟩ := List.mem_map.mp hrow
    obtain ⟨x, hxq, rfl⟩ := List.mem_map.mp hc
    obtain ⟨va, hva, rfl⟩ := List.mem_map.mp haq
    obtain ⟨vx, hvx, rfl⟩ := List.mem_map.mp hxq
    rw [hmb, noiseCell, List.foldl_cons, if_pos (hcover va hva vx hvx), List.foldl_nil]
    rfl

/-- Witness for claim C5 at concrete in-image integer coordinates. -/
theorem noise_lut_azi_no_records_witness :
    (([0, 3] : List ℤ) ≠ [] ∧ ([1, 2] : List ℤ) ≠ [] ∧
      (∀ v ∈ ([0, 3] : List ℤ), ([0, 3] : List ℤ).headD 0 ≤ v ∧
        v ≤ ([0, 3] : List ℤ).getLastD 0 ∧ 0 ≤ v ∧ v ≤ 65535) ∧
      (∀ v ∈ ([1, 2] : List ℤ), ([1, 2] : List ℤ).headD 0 ≤ v ∧
        v ≤ ([1, 2] : List ℤ).getLastD 0 ∧ 0 ≤ v ∧ v ≤ 65535)) ∧
    ((∃ b, noise_lut_azi_blocks [] [] [] [] [] [] [] = [b] ∧
        b.aMin = 0 ∧ b.xMin = 0 ∧ b.aMax = 65535 ∧ b.xMax = 65535 ∧
        ∀ qa qx, b.lut qa qx = some 1) ∧
      ∃ g, noiseLutCall (noise_lut_azi_blocks [] [] [] [] [] [] [])
          (([0, 3] : List ℤ).map (fun v : ℤ => (v : ℚ)))
          (([1, 2] : List ℤ).map (fun v : ℤ => (v : ℚ))) = Sum.inr g ∧
        g.length = ([0, 3] : List ℤ).length ∧
        (∀ row ∈ g, row.length = ([1, 2] : List ℤ).length) ∧
        ∀ row ∈ g, ∀ c ∈ row, c = some 1) :=
  ⟨⟨List.cons_ne_nil _ _, List.cons_ne_nil _ _, by decide, by decide⟩,
    noise_lut_azi_no_records [0, 3] [1, 2] (List.cons_ne_nil _ _) (List.cons_ne_nil _ _)
      (by decide) (by decide)⟩

/-! ## Claim C4 -/

theorem pairwise_fst_zip (a lut : List ℚ) (hlen : a.length = lut.length)
    (hs : a.Pairwise (· < ·)) : (a.zip lut).Pairwise (fun u v => u.1 < v.1) := by
  have hmap : (a.zip lut).map Prod.fst = a := List.map_fst_zip a lut (le_of_eq hlen)
  rw [← hmap] at hs
  exact List.pairwise_map.mp hs

theorem getD_zip (a b : List ℚ) {i : ℕ} (hi : i < a.length) (hib : i < b.length) :
    (a.zip b).getD i (0, 0) = (a.getD i 0, b.getD i 0) := by
  rw [List.getD_eq_getElem _ _ (by rw [List.length_zip]; omega), List.getElem_zip,
    List.getD_eq_getElem _ _ hi, List.getD_eq_getElem _ _ hib]

theorem getD_last_cons (p : ℚ × ℚ) (l : List (ℚ × ℚ)) (hl : l ≠ []) :
    (p :: l).getD ((p :: l).length - 1) (0, 0) = l.getD (l.length - 1) (0, 0) := by
  have h1 : (p :: l).length - 1 = (l.length - 1) + 1 := by
    cases l with
    | nil => exact absurd rfl hl
    | cons q qs => simp
  rw [h1, List.getD_cons_succ]

theorem fst_le_getD_last (x1 y1 : ℚ) (l : List (ℚ × ℚ))
    (hpw : ((x1, y1) :: l).Pairwise (fun u v => u.1 < v.1)) (hl : l ≠ []) :
    x1 ≤ (((x1, y1) :: l).getD (((x1, y1) :: l).length - 1) (0, 0)).1 := by
  rw [getD_last_cons _ _ hl]
  have hlenpos : l.length - 1 < l.length := by
    cases l with
    | nil => exact absurd rfl hl
    | cons q qs => simp
  have hmem : l.getD (l.length - 1) (0, 0) ∈ l := by
    rw [List.getD_eq_getElem _ _ hlenpos]
    exact List.getElem_mem hlenpos
  exact le_of_lt ((List.pairwise_cons.mp hpw).1 _ hmem)

/-- Characterization of the scipy linear interpolant: every evaluation is the
affine line of one adjacent-sample segment; a query below the first sample
uses the first segment, a query above the last sample uses the last segment,
and an in-range query uses a segment that brackets it. -/
theorem interp1d_segment : ∀ (ps : List (ℚ × ℚ)),
    ps.Pairwise (fun u v => u.1 < v.1) → 2 ≤ ps.length → ∀ t, ∃ i, i + 2 ≤ ps.length ∧
      interp1d_extrapolate ps t = interpSeg (ps.getD i (0, 0)).1 (ps.getD i (0, 0)).2
        (ps.getD (i + 1) (0, 0)).1 (ps.getD (i + 1) (0, 0)).2 t ∧
      (t < (ps.getD 0 (0, 0)).1 → i = 0) ∧
      ((ps.getD (ps.length - 1) (0, 0)).1 < t → i = ps.length - 2) ∧
      ((ps.getD 0 (0, 0)).1 ≤ t → t ≤ (ps.getD (ps.length - 1) (0, 0)).1 →
        (ps.getD i (0, 0)).1 ≤ t ∧ t ≤ (ps.getD (i + 1) (0, 0)).1) := by
  intro ps
  induction ps with
  | nil => intro _ h2; simp at h2
  | cons p0 tail ih =>
    cases tail with
    | nil => intro _ h2; simp at h2
    | cons p1 rest =>
      intro hpw _h2 t
      obtain ⟨x0, y0⟩ := p0
      obtain ⟨x1, y1⟩ := p1
      cases rest with
      | nil =>
        refine ⟨0, by simp, ?_, fun _ => rfl, fun _ => rfl, fun hlo hhi => ⟨hlo, hhi⟩⟩
        by_cases ht : t ≤ x1
        · rw [interp1d_extrapolate, if_pos (Or.inl ht)]; rfl
        · rw [interp1d_extrapolate, if_pos (Or.inr rfl)]; rfl
      | cons p2 rest2 =>
        have hx01 : x0 < x1 := (List.pairwise_cons.mp hpw).1 (x1, y1) (List.mem_cons_self _ _)
        have hpw1 : ((x1, y1) :: p2 :: rest2).Pairwise (fun u v => u.1 < v.1) :=
          (List.pairwise_cons.mp hpw).2
        have hlastEq : (((x0, y0) :: (x1, y1) :: p2 :: rest2).getD
            (((x0, y0) :: (x1, y1) :: p2 :: rest2).length - 1) (0, 0)) =
            (((x1, y1) :: p2 :: rest2).getD
              (((x1, y1) :: p2 :: rest2).length - 1) (0, 0)) :=
          getD_last_cons _ _ (List.cons_ne_nil _ _)
        have hx1last : x1 ≤ (((x1, y1) :: p2 :: rest2).getD
            (((x1, y1) :: p2 :: rest2).length - 1) (0, 0)).1 :=
          fst_le_getD_last x1 y1 _ hpw1 (List.cons_ne_nil _ _)
        by_cases ht : t ≤ x1
        · refine ⟨0, by simp, ?_, fun _ => rfl, ?_, fun hlo _ => ⟨hlo, ht⟩⟩
          · rw [interp1d_extrapolate, if_pos (Or.inl ht)]; rfl
          · intro hlast
            rw [hlastEq] at hlast
            exact absurd ht (not_le.mpr (lt_of_le_of_lt hx1last hlast))
        · have hx1t : x1 < t := not_le.mp ht
          have heval : interp1d_extrapolate ((x0, y0) :: (x1, y1) :: p2 :: rest2) t =
              interp1d_extrapolate ((x1, y1) :: p2 :: rest2) t := by
            rw [interp1d_extrapolate, if_neg (by simp [ht])]
          obtain ⟨i, hi2, heval', hfirst, hlastc, hbracket⟩ := ih hpw1 (by simp) t
          refine ⟨i + 1, ?_, ?_, ?_, ?_, ?_⟩
          · simp only [List.length_cons] at hi2 ⊢
            omega
          · have e1 : ((x0, y0) :: (x1, y1) :: p2 :: rest2).getD (i + 1) (0, 0) =
                ((x1, y1) :: p2 :: rest2).getD i (0, 0) := List.getD_cons_succ
            have e2 : ((x0, y0) :: (x1, y1) :: p2 :: rest2).getD (i + 1 + 1) (0, 0) =
                ((x1, y1) :: p2 :: rest2).getD (i + 1) (0, 0) := List.getD_cons_succ
            rw [heval, heval', e1, e2]
          · intro hless
            exact absurd hless (not_lt.mpr (le_of_lt (lt_trans hx01 hx1t)))
          · intro hlast
            rw [hlastEq] at hlast
            have hieq := hlastc hlast
            simp only [List.length_cons] at hieq ⊢
            omega
          · intro _hlo hhi
            rw [hlastEq] at hhi
            have hb := hbracket (le_of_lt hx1t) hhi
            rw [List.getD_cons_succ, List.getD_cons_succ]
            exact hb

/-- Claim C4: a `Lut_box_azi` profile with exactly one along-track sample
evaluates to that single value at every queried along-track coordinate, even
far from the sample's position; with two or more samples, every evaluation
is the affine line of one adjacent-sample segment — the bracketing segment
in range, the first segment below the profile's extent and the last segment
above it (linear extrapolation). -/
theorem lut_box_azi_degenerate_and_extrapolation (a lut : List ℚ)
    (hlen : a.length = lut.length) (hsort : a.Pairwise (· < ·)) :
    (lut.length = 1 → ∀ t, lut_box_azi_f a lut t = lut.headD 0) ∧
    (2 ≤ lut.length → ∀ t, ∃ i, i + 2 ≤ lut.length ∧
      lut_box_azi_f a lut t =
        interpSeg (a.getD i 0) (lut.getD i 0) (a.getD (i + 1) 0) (lut.getD (i + 1) 0) t ∧
      (t < a.getD 0 0 → i = 0) ∧
      (a.getD (a.length - 1) 0 < t → i = a.length - 2) ∧
      (a.getD 0 0 ≤ t → t ≤ a.getD (a.length - 1) 0 →
        a.getD i 0 ≤ t ∧ t ≤ a.getD (i + 1) 0)) := by
  constructor
  · intro h1 t
    rw [lut_box_azi_f, if_neg (by omega)]
  · intro h2 t
    have hz : (a.zip lut).length = lut.length := by
      rw [List.length_zip, hlen, min_self]
    obtain ⟨i, hi2, heval, hfirst, hlast, hbracket⟩ :=
      interp1d_segment (a.zip lut) (pairwise_fst_zip a lut hlen hsort) (by omega) t
    rw [hz] at hi2
    have hia : i < a.length := by omega
    have hia1 : i + 1 < a.length := by omega
    have g1 := getD_zip a lut hia (by omega : i < lut.length)
    have g2 := getD_zip a lut hia1 (by omega : i + 1 < lut.length)
    have glast := getD_zip a lut (by omega : a.length - 1 < a.length)
      (by omega : a.length - 1 < lut.length)
    have hzl : (a.zip lut).length - 1 = a.length - 1 := by rw [hz, hlen]
    have g0 := getD_zip a lut (by omega : 0 < a.length) (by omega : 0 < lut.length)
    refine ⟨i, by omega, ?_, ?_, ?_, ?_⟩
    · rw [lut_box_azi_f, if_pos (by omega), heval, g1, g2]
    · intro hless
      apply hfirst
      rw [g0]
      exact hless
    · intro hmore
      have hieq := hlast (by rw [hzl, glast]; exact hmore)
      rw [hz, ← hlen] at hieq
      exact hieq
    · intro hlo hhi
      have hb := hbracket (by rw [g0]; exact hlo) (by rw [hzl, glast]; exact hhi)
      rw [g1, g2] at hb
      exact hb

/-- Witness for claim C4: a one-sample profile is constant far away from its
sample, and a two-sample profile extrapolates linearly above its extent. -/
theorem lut_box_azi_degenerate_and_extrapolation_witness :
    (([5] : List ℚ).length = ([9] : List ℚ).length ∧ ([5] : List ℚ).Pairwise (· < ·) ∧
      ([0, 10] : List ℚ).length = ([1, 3] : List ℚ).length ∧
      ([0, 10] : List ℚ).Pairwise (· < ·)) ∧
    lut_box_azi_f [5] [9] 1000 = 9 ∧ lut_box_azi_f [0, 10] [1, 3] 20 = 5 := by
  refine ⟨⟨rfl, by simp, rfl, by norm_num [List.pairwise_cons]⟩, ?_, ?_⟩
  · have h := (lut_box_azi_degenerate_and_extrapolation [5] [9] rfl (by simp)).1 rfl 1000
    simpa using h
  · obtain ⟨i, hi2, heval, _hf, _hl, _hb⟩ :=
      (lut_box_azi_degenerate_and_extrapolation [0, 10] [1, 3] rfl
        (by norm_num [List.pairwise_cons])).2 (by norm_num) 20
    rw [show ([1, 3] : List ℚ).length = 2 from rfl] at hi2
    have hi0 : i = 0 := by omega
    subst hi0
    rw [heval]
    norm_num [interpSeg]

/-! ## Claim C8 -/

theorem mem_validIndices (rowf rowl : List ℤ) (j : ℕ) :
    j ∈ validIndices rowf rowl ↔
      j ∈ (Finset.range rowf.length).filter
        (fun j => rowf.getD j 0 ≠ -1 ∨ rowl.getD j 0 ≠ -1) := by
  simp [validIndices, Finset.mem_filter, Finset.mem_range, List.mem_filter, List.mem_range]

theorem validIndices_min (rowf rowl : List ℤ) (V : Finset ℕ)
    (hV : V = (Finset.range rowf.length).filter
      (fun j => rowf.getD j 0 ≠ -1 ∨ rowl.getD j 0 ≠ -1))
    (hne : V.Nonempty) :
    (validIndices rowf rowl).min? = some (V.min' hne) := by
  rw [List.min?_eq_some_iff']
  constructor
  · rw [mem_validIndices, ← hV]
    exact Finset.min'_mem V hne
  · intro b hb
    rw [mem_validIndices, ← hV] at hb
    exact Finset.min'_le V b hb

theorem validIndices_max (rowf rowl : List ℤ) (V : Finset ℕ)
    (hV : V = (Finset.range rowf.length).filter
      (fun j => rowf.getD j 0 ≠ -1 ∨ rowl.getD j 0 ≠ -1))
    (hne : V.Nonempty) :
    (validIndices rowf rowl).max? = some (V.max' hne) := by
  rw [List.max?_eq_some_iff']
  constructor
  · rw [mem_validIndices, ← hV]
    exact Finset.max'_mem V hne
  · intro b hb
    rw [mem_validIndices, ← hV] at hb
    exact Finset.le_max' V b hb

theorem foldl_nanstep_none (op : ℤ → ℤ → ℤ) (xs : List (Option ℤ)) :
    List.foldl (fun acc y =>
      match acc, y with
      | some u, some v => some (op u v)
      | _, _ => none) none xs = none := by
  induction xs with
  | nil => rfl
  | cons y ys ih =>
    rw [List.foldl_cons]
    cases y with
    | none => exact ih
    | some v => exact ih

theorem foldl_nanstep_mem_none (op : ℤ → ℤ → ℤ) (xs : List (Option ℤ)) :
    none ∈ xs → ∀ acc, List.foldl (fun acc y =>
      match acc, y with
      | some u, some v => some (op u v)
      | _, _ => none) acc xs = none := by
  induction xs with
  | nil => intro hmem; exact absurd hmem (List.not_mem_nil none)
  | cons y ys ih =>
    intro hmem acc
    rw [List.foldl_cons]
    rcases List.mem_cons.mp hmem with hy | hy
    · cases hy
      cases acc with
      | none => exact foldl_nanstep_none op ys
      | some u => exact foldl_nanstep_none op ys
    · exact ih hy _

theorem nanReduce_none_mem (op : ℤ → ℤ → ℤ) (l : List (Option ℤ)) (hmem : none ∈ l) :
    nanReduce op l = none := by
  cases l with
  | nil => rfl
  | cons x xs =>
    rcases List.mem_cons.mp hmem with hx | hx
    · cases hx
      simp only [nanReduce]
      exact foldl_nanstep_none op xs
    · simp only [nanReduce]
      exact foldl_nanstep_mem_none op xs hx x

theorem foldl_nanstep_map_some (op : ℤ → ℤ → ℤ) (xs : List ℤ) : ∀ u : ℤ,
    List.foldl (fun acc y =>
      match acc, y with
      | some u', some v => some (op u' v)
      | _, _ => none) (some u) (xs.map some) = some (xs.foldl op u) := by
  induction xs with
  | nil => intro u; rfl
  | cons v vs ih =>
    intro u
    rw [List.map_cons, List.foldl_cons, List.foldl_cons]
    exact ih (op u v)

theorem nanMin_map_some (l : List ℤ) : nanMin (l.map some) = l.min? := by
  cases l with
  | nil => rfl
  | cons x xs =>
    rw [List.map_cons, nanMin, nanReduce, List.min?_cons']
    exact foldl_nanstep_map_some min xs x

theorem nanMax_map_some (l : List ℤ) : nanMax (l.map some) = l.max? := by
  cases l with
  | nil => rfl
  | cons x xs =>
    rw [List.map_cons, nanMax, nanReduce, List.max?_cons']
    exact foldl_nanstep_map_some max xs x

theorem min?_int_eq_some_iff {l : List ℤ} {a : ℤ} :
    l.min? = some a ↔ a ∈ l ∧ ∀ b ∈ l, a ≤ b := by
  haveI : Std.Antisymm ((· : ℤ) ≤ ·) := ⟨fun h h' => le_antisymm h h'⟩
  exact List.min?_eq_some_iff (fun _ => le_refl _) (fun a b => min_choice a b)
    (fun _ _ _ => le_min_iff)

theorem max?_int_eq_some_iff {l : List ℤ} {a : ℤ} :
    l.max? = some a ↔ a ∈ l ∧ ∀ b ∈ l, b ≤ a := by
  haveI : Std.Antisymm ((· : ℤ) ≤ ·) := ⟨fun h h' => le_antisymm h h'⟩
  exact List.max?_eq_some_iff (fun _ => le_refl _) (fun a b => max_choice a b)
    (fun _ _ _ => max_le_iff)

theorem getD_map_maskNeg1 (row : List ℤ) {j : ℕ} (hj : j < row.length) :
    (row.map maskNeg1).getD j none = maskNeg1 (row.getD j 0) := by
  rw [List.getD_eq_getElem _ _ (by simpa using hj), List.getElem_map,
    List.getD_eq_getElem _ _ hj]

theorem nanMin_masked_eq (rowf rowl : List ℤ) (V : Finset ℕ)
    (hV : V = (Finset.range rowf.length).filter
      (fun j => rowf.getD j 0 ≠ -1 ∨ rowl.getD j 0 ≠ -1))
    (hne : V.Nonempty) :
    nanMin ((validIndices rowf rowl).map (fun j => (rowf.map maskNeg1).getD j none)) =
      if ∀ j ∈ V, rowf.getD j 0 ≠ -1 then
        some ((V.image (fun j => rowf.getD j 0)).min' (hne.image _))
      else none := by
  have hj_lt : ∀ j ∈ validIndices rowf rowl, j < rowf.length := by
    intro j hj
    have hmem := (mem_validIndices rowf rowl j).mp hj
    exact Finset.mem_range.mp (Finset.mem_filter.mp hmem).1
  rw [List.map_congr_left (fun j hj => getD_map_maskNeg1 rowf (hj_lt j hj))]
  by_cases hall : ∀ j ∈ V, rowf.getD j 0 ≠ -1
  · rw [if_pos hall]
    have hrw : (validIndices rowf rowl).map (fun j => maskNeg1 (rowf.getD j 0)) =
        ((validIndices rowf rowl).map (fun j => rowf.getD j 0)).map some := by
      rw [List.map_map]
      apply List.map_congr_left
      intro j hj
      have hjV : j ∈ V := by rw [hV]; exact (mem_validIndices rowf rowl j).mp hj
      simp only [Function.comp, maskNeg1]
      rw [if_neg (hall j hjV)]
    rw [hrw, nanMin_map_some, min?_int_eq_some_iff]
    constructor
    · obtain ⟨j, hjV, hval⟩ := Finset.mem_image.mp
        (Finset.min'_mem _ (hne.image (fun j => rowf.getD j 0)))
      refine List.mem_map.mpr ⟨j, ?_, hval⟩
      rw [hV] at hjV
      exact (mem_validIndices rowf rowl j).mpr hjV
    · intro b hb
      obtain ⟨j, hj, rfl⟩ := List.mem_map.mp hb
      apply Finset.min'_le
      apply Finset.mem_image_of_mem
      rw [hV]
      exact (mem_validIndices rowf rowl j).mp hj
  · rw [if_neg hall]
    push_neg at hall
    obtain ⟨j0, hj0V, hj0⟩ := hall
    apply nanReduce_none_mem
    refine List.mem_map.mpr ⟨j0, ?_, ?_⟩
    · rw [hV] at hj0V
      exact (mem_validIndices rowf rowl j0).mpr hj0V
    · simp only [maskNeg1]
      rw [if_pos hj0]

theorem nanMax_masked_eq (rowf rowl : List ℤ) (hlen : rowl.length = rowf.length)
    (V : Finset ℕ)
    (hV : V = (Finset.range rowf.length).filter
      (fun j => rowf.getD j 0 ≠ -1 ∨ rowl.getD j 0 ≠ -1))
    (hne : V.Nonempty) :
    nanMax ((validIndices rowf rowl).map (fun j => (rowl.map maskNeg1).getD j none)) =
      if ∀ j ∈ V, rowl.getD j 0 ≠ -1 then
        some ((V.image (fun j => rowl.getD j 0)).max' (hne.image _))
      else none := by
  have hj_lt : ∀ j ∈ validIndices rowf rowl, j < rowl.length := by
    intro j hj
    have hmem := (mem_validIndices rowf rowl j).mp hj
    rw [hlen]
    exact Finset.mem_range.mp (Finset.mem_filter.mp hmem).1
  rw [List.map_congr_left (fun j hj => getD_map_maskNeg1 rowl (hj_lt j hj))]
  by_cases hall : ∀ j ∈ V, rowl.getD j 0 ≠ -1
  · rw [if_pos hall]
    have hrw : (validIndices rowf rowl).map (fun j => maskNeg1 (rowl.getD j 0)) =
        ((validIndices rowf rowl).map (fun j => rowl.getD j 0)).map some := by
      rw [List.map_map]
      apply List.map_congr_left
      intro j hj
      have hjV : j ∈ V := by rw [hV]; exact (mem_validIndices rowf rowl j).mp hj
      simp only [Function.comp, maskNeg1]
      rw [if_neg (hall j hjV)]
    rw [hrw, nanMax_map_some, max?_int_eq_some_iff]
    constructor
    · obtain ⟨j, hjV, hval⟩ := Finset.mem_image.mp
        (Finset.max'_mem _ (hne.image (fun j => rowl.getD j 0)))
      refine List.mem_map.mpr ⟨j, ?_, hval⟩
      rw [hV] at hjV
      exact (mem_validIndices rowf rowl j).mpr hjV
    · intro b hb
      obtain ⟨j, hj, rfl⟩ := List.mem_map.mp hb
      apply Finset.le_max'
      apply Finset.mem_image_of_mem
      rw [hV]
      exact (mem_validIndices rowf rowl j).mp hj
  · rw [if_neg hall]
    push_neg at hall
    obtain ⟨j0, hj0V, hj0⟩ := hall
    apply nanReduce_none_mem
    refine List.mem_map.mpr ⟨j0, ?_, ?_⟩
    · rw [hV] at hj0V
      exact (mem_validIndices rowf rowl j0).mpr hj0V
    · simp only [maskNeg1]
      rw [if_pos hj0]

/-- Claim C8: for a burst whose valid-sample rows mix -1 sentinels and real
indices, the valid_location row is computed only over the column indices
where at least one of the two arrays is finite after -1 is masked to NaN,
and equals exactly
[ibur*lines_per_burst + min(valid indices),
 min of firstValidSample over the valid indices,
 ibur*lines_per_burst + max(valid indices),
 max of lastValidSample over the valid indices],
where a min/max over values that include a masked entry is NaN (`none`), as
numpy propagates NaN. -/
theorem bursts_valid_location (lpb spb : ℤ) (azt : List ℚ)
    (fvs lvs : List (List ℤ)) (ibur : ℕ) (hibur : ibur < azt.length)
    (rowf rowl : List ℤ) (hrf : fvs.getD ibur [] = rowf) (hrl : lvs.getD ibur [] = rowl)
    (hlen : rowl.length = rowf.length)
    (V : Finset ℕ)
    (hV : V = (Finset.range rowf.length).filter
      (fun j => rowf.getD j 0 ≠ -1 ∨ rowl.getD j 0 ≠ -1))
    (hne : V.Nonempty) (hguard : ¬(lpb = 0 ∧ spb = 0)) :
    ∃ tbl, bursts lpb spb azt fvs lvs = some tbl ∧
      tbl.getD ibur (none, none, none, none) =
        (some (ibur * lpb + V.min' hne),
         if ∀ j ∈ V, rowf.getD j 0 ≠ -1 then
           some ((V.image (fun j => rowf.getD j 0)).min' (hne.image _)) else none,
         some (ibur * lpb + V.max' hne),
         if ∀ j ∈ V, rowl.getD j 0 ≠ -1 then
           some ((V.image (fun j => rowl.getD j 0)).max' (hne.image _)) else none) := by
  refine ⟨_, by rw [bursts, if_neg hguard], ?_⟩
  rw [getD_map_range _ _ hibur, hrf, hrl]
  simp only [validLoc]
  rw [validIndices_min rowf rowl V hV hne, validIndices_max rowf rowl V hV hne,
    nanMin_masked_eq rowf rowl V hV hne, nanMax_masked_eq rowf rowl hlen V hV hne]
  rfl

/-- Witness for claim C8 on a burst whose rows mix -1 sentinels and real
indices in incompatible positions: the index bounds come from the union of
finite positions while both value bounds degenerate to NaN. -/
theorem bursts_valid_location_witness :
    ((0 : ℕ) < ([0] : List ℚ).length ∧
      ([[-1, 5, 3]] : List (List ℤ)).getD 0 [] = [-1, 5, 3] ∧
      ([[7, -1, 4]] : List (List ℤ)).getD 0 [] = [7, -1, 4] ∧
      ([7, -1, 4] : List ℤ).length = ([-1, 5, 3] : List ℤ).length ∧
      ({0, 1, 2} : Finset ℕ) = (Finset.range ([-1, 5, 3] : List ℤ).length).filter
        (fun j => ([-1, 5, 3] : List ℤ).getD j 0 ≠ -1 ∨ ([7, -1, 4] : List ℤ).getD j 0 ≠ -1) ∧
      ({0, 1, 2} : Finset ℕ).Nonempty ∧
      ¬((2 : ℤ) = 0 ∧ (1 : ℤ) = 0)) ∧
    ∃ tbl, bursts 2 1 [0] [[-1, 5, 3]] [[7, -1, 4]] = some tbl ∧
      tbl.getD 0 (none, none, none, none) = (some 0, none, some 2, none) := by
  refine ⟨⟨by decide, rfl, rfl, rfl, by decide, ⟨0, by decide⟩, by decide⟩, ?_⟩
  obtain ⟨tbl, htbl, hrow⟩ := bursts_valid_location 2 1 [0] [[-1, 5, 3]] [[7, -1, 4]] 0
    (by decide) [-1, 5, 3] [7, -1, 4] rfl rfl rfl ({0, 1, 2} : Finset ℕ) (by decide)
    ⟨0, by decide⟩ (by decide)
  refine ⟨tbl, htbl, ?_⟩
  rw [hrow]
  decide

end Xsar
